import Mathlib

/-!
Shallow embedding, in Lean 4, of the core of the `network-device-automation`
repository, together with theorems settling the frozen claims about it.

Embedded source functions (Python):
  scripts/universal_executor.py
    `_handle_pagination`, `execute_command`, `execute_commands`,
    `execute_task`, `_execute_step`, `_execute_commands_in_step`,
    `_resolve_variables`, `_evaluate_condition`, `_execute_rollback`
  scripts/batch_manager.py
    `execute_on_device`, `batch_execute`

Modelling conventions:
  - Time is discrete, in tenths of a second, so that the sleeps of
    `_handle_pagination` (0.2 s, 0.3 s, 0.5 s), its 3-second idle window
    and its hard timeout are all integers.
  - The SSH byte stream is a schedule: a queue of (arrival-time, chunk)
    pairs; `recv_ready` is true when the front chunk has arrived.
  - The device behind a session is an oracle mapping the history of
    dispatched commands and the current command to an outcome; a Python
    exception inside `execute_command` is the `err` outcome.
  - Python dicts are insertion-ordered association lists; in-place
    assignment `d[k] = v` is `dictSet` (overwrite in place, else append).
  - Python `str.replace` is `strReplace` (leftmost, non-overlapping,
    replace-all), written at the character-list level with explicit fuel
    so that every definition evaluates by kernel reduction.
  - Thread-pool nondeterminism of `batch_execute` is a relation: the
    parallel outcome is any permutation of the per-device results.
-/

namespace NetAuto

/-! ## Generic string machinery (embedding of Python str operations) -/

/-- Python `pat in s` (substring test), at the character-list level:
true iff `pat` is a prefix of some suffix of `s`. -/
def containsL (pat : List Char) : List Char → Bool
  | [] => pat.isEmpty
  | c :: rest => pat.isPrefixOf (c :: rest) || containsL pat rest

/-- Python `pat in s` on strings. -/
def strContains (s pat : String) : Bool :=
  containsL pat.data s.data

/-- Python `s.lower()` (ASCII-adequate: device commands are ASCII). -/
def strLower (s : String) : String :=
  ⟨s.data.map Char.toLower⟩

/-- Worker for `strReplace`: scan left to right; on a pattern match emit the
replacement and skip the pattern, else keep one character.  The fuel is an
upper bound on the scan length (the caller passes the string length), kept
explicit so the function is structurally recursive and kernel-evaluable. -/
def replaceGo (pat rep : List Char) : Nat → List Char → List Char
  | _, [] => []
  | 0, s => s
  | fuel + 1, c :: rest =>
    if pat.isPrefixOf (c :: rest) && !pat.isEmpty then
      rep ++ replaceGo pat rep fuel ((c :: rest).drop pat.length)
    else
      c :: replaceGo pat rep fuel rest

/-- Python `s.replace(pat, rep)` for a non-empty `pat`: replace every
leftmost non-overlapping occurrence. -/
def strReplace (s pat rep : String) : String :=
  ⟨replaceGo pat.data rep.data s.data.length s.data⟩

/-- Count of leftmost non-overlapping occurrences of `pat`, same scan as
`replaceGo` (Python `s.count(pat)` for non-empty `pat`). -/
def countOccsGo (pat : List Char) : Nat → List Char → Nat
  | _, [] => 0
  | 0, _ => 0
  | fuel + 1, c :: rest =>
    if pat.isPrefixOf (c :: rest) && !pat.isEmpty then
      1 + countOccsGo pat fuel ((c :: rest).drop pat.length)
    else
      countOccsGo pat fuel rest

/-- Occurrence count of `pat` inside `s`. -/
def countOccs (s pat : String) : Nat :=
  countOccsGo pat.data s.data.length s.data

/-! ## OutputFramer: `_handle_pagination` (universal_executor.py, lines 150-181)

The loop reads available chunks into `output`; a chunk containing the
pagination token `---- More ----` triggers `shell.send(" ")` and a 0.3 s
sleep; a chunk matching the prompt regex with more than 50 accumulated
characters triggers a 0.5 s grace sleep and completion if nothing else is
ready; 3 seconds without data (and more than 50 characters) completes; the
`while` guard stops the loop once elapsed time reaches the timeout. -/

/-- The pagination continuation token (経験002 comment in the source). -/
def moreToken : String := "---- More ----"

/-- Python `"---- More ----" in chunk`. -/
def hasMore (chunk : String) : Bool :=
  strContains chunk moreToken

/-- Character class of the regex `\w` (ASCII-adequate). -/
def isWordChar (c : Char) : Bool :=
  c.isAlphanum || c == '_'

/-- Match of the regex `<\w+>` at the position just after a `<`:
a non-empty run of word characters followed by `>`. -/
def angleMatch (rest : List Char) : Bool :=
  let w := rest.takeWhile isWordChar
  !w.isEmpty && ((rest.drop w.length).head? == some '>')

/-- Match of the regex `[\S+]` (bracketed non-space run) at the position
just after a `[`: with backtracking this succeeds iff the maximal non-space
run after the `[` contains a `]` at index at least 1. -/
def squareMatch (rest : List Char) : Bool :=
  ((rest.takeWhile fun c => !c.isWhitespace).drop 1).contains ']'

/-- Scan for the regex alternation at every position. -/
def promptScan : List Char → Bool
  | [] => false
  | c :: rest =>
    (c == '<' && angleMatch rest) || (c == '[' && squareMatch rest) ||
      promptScan rest

/-- Python `re.search(r'<\w+>|\[\S+\]', chunk)` viewed as a Bool. -/
def promptMatch (chunk : String) : Bool :=
  promptScan chunk.data

/-- State of the `_handle_pagination` loop.  Times are in tenths of a
second measured from the `start_time` of the loop.  `sent` counts the
continuation keys sent (`shell.send(" ")`) and `consumed` records the
chunks returned by `shell.recv`, both observable side effects. -/
structure PagState where
  output : String
  now : Nat
  lastData : Nat
  pending : List (Nat × String)
  sent : Nat
  consumed : List String

/-- Python `shell.recv_ready()` against the schedule: the front pending
chunk has arrived. -/
def recvReady (now : Nat) : List (Nat × String) → Bool
  | [] => false
  | (t, _) :: _ => t ≤ now

/-- Tail of each loop iteration: the idle-completion check
(`time.time() - last_data_time > 3 and len(output) > 50`) followed by
`time.sleep(0.2)`.  Returns the next state and whether the loop breaks. -/
def pagIdle (st : PagState) : PagState × Bool :=
  if st.now - st.lastData > 30 && st.output.length > 50 then (st, true)
  else ({ st with now := st.now + 2 }, false)

/-- One full iteration of the `while` body of `_handle_pagination`. -/
def pagBody (st : PagState) : PagState × Bool :=
  match st.pending with
  | (t, chunk) :: rest =>
    if t ≤ st.now then
      let st1 : PagState :=
        { st with
          output := st.output ++ chunk
          lastData := st.now
          pending := rest
          consumed := st.consumed ++ [chunk] }
      if hasMore chunk then
        ({ st1 with sent := st1.sent + 1, now := st1.now + 3 }, false)
      else if promptMatch chunk && decide (st1.output.length > 50) then
        let st2 : PagState := { st1 with now := st1.now + 5 }
        if recvReady st2.now st2.pending then pagIdle st2 else (st2, true)
      else pagIdle st1
    else pagIdle st
  | [] => pagIdle st

/-- The `while time.time() - start_time < timeout` loop, with explicit
iteration fuel (each iteration advances the clock by at least 0.2 s, so
`timeoutD + 1` iterations always suffice; `none` would mean the fuel ran
out before the loop exited on its own). -/
def pagLoop (timeoutD : Nat) : Nat → PagState → Option PagState
  | 0, _ => none
  | fuel + 1, st =>
    if st.now < timeoutD then
      let pr := pagBody st
      if pr.2 then some pr.1 else pagLoop timeoutD fuel pr.1
    else some st

/-- `_handle_pagination(shell, timeout)`: run the loop from the empty
buffer at time 0 over the given byte-arrival schedule.  `timeoutSec` is the
`timeout` argument in seconds (default 60). -/
def handlePagination (timeoutSec : Nat) (sched : List (Nat × String)) :
    Option PagState :=
  pagLoop (timeoutSec * 10) (timeoutSec * 10 + 1)
    { output := "", now := 0, lastData := 0, pending := sched, sent := 0,
      consumed := [] }

/-! ## TaskEngine (universal_executor.py, lines 183-388)

The variables dict is an insertion-ordered association list; the device is
an oracle from dispatched-command history and current command to outcome
(`err` models a Python exception inside `execute_command`); the `input()`
confirmation answer is the `userConfirms` flag of the context. -/

/-- Python dict assignment `d[k] = v`: overwrite in place, else append. -/
def dictSet : List (String × String) → String → String →
    List (String × String)
  | [], k, v => [(k, v)]
  | (k', v') :: rest, k, v =>
    if k' == k then (k, v) :: rest else (k', v') :: dictSet rest k v

/-- Python dict lookup `d.get(k)` / `k in d`. -/
def lookupVar : List (String × String) → String → Option String
  | [], _ => none
  | (k', v') :: rest, k => if k' == k then some v' else lookupVar rest k

/-- The placeholder text of a variable name, the double-brace-wrapped key
built by the f-string in `_resolve_variables` (braces written as hex
escapes). -/
def placeholder (k : String) : String :=
  "\x7b\x7b" ++ k ++ "\x7d\x7d"

/-- `_resolve_variables(text, variables)` (lines 356-360): for each binding
in dict order, `text = text.replace("\x7b\x7bkey\x7d\x7d", str(value))`. -/
def resolveVariables (text : String) (vars : List (String × String)) :
    String :=
  vars.foldl (fun t kv => strReplace t (placeholder kv.1) kv.2) text

/-- A step condition: `equals` / `exists` dicts, or an unrecognized kind
(which `_evaluate_condition` accepts as true). -/
inductive Cond where
  | equals (lhs rhs : String)
  | exist (name : String)
  | other

/-- `_evaluate_condition(condition, variables)` (lines 371-382).  The
Python truthiness of `variables[var_name]` is non-emptiness. -/
def evalCondition (c : Cond) (vars : List (String × String)) : Bool :=
  match c with
  | .equals a b => resolveVariables a vars == resolveVariables b vars
  | .exist n =>
    match lookupVar vars n with
    | some v => !(v == "")
    | none => false
  | .other => true

/-- The `loop` field of a step: an item list (each item is itself
variable-resolved) and the loop-variable name (default `item`). -/
structure LoopCfg where
  items : List String
  itemVar : String

/-- A Step: the optional `condition`, `loop` and `rollback` keys, the
`commands` list, and the `stop_on_error` / `confirm` flags (the `timeout`
key does not affect observable behaviour in this model and is omitted).
Recursive because rollback entries are themselves steps. -/
inductive Step where
  | mk (condition : Option Cond) (loopCfg : Option LoopCfg)
      (commands : List String) (rollback : Option (List Step))
      (stopOnError : Bool) (confirm : Bool)

def Step.condition : Step → Option Cond
  | .mk c _ _ _ _ _ => c

def Step.loopCfg : Step → Option LoopCfg
  | .mk _ l _ _ _ _ => l

def Step.commands : Step → List String
  | .mk _ _ cs _ _ _ => cs

def Step.rollback : Step → Option (List Step)
  | .mk _ _ _ rb _ _ => rb

def Step.stopOnError : Step → Bool
  | .mk _ _ _ _ so _ => so

def Step.confirm : Step → Bool
  | .mk _ _ _ _ _ cf => cf

/-- Outcome of one dispatched command as seen by `execute_command`:
`ok output`, or `err msg` when a Python exception with message `msg` is
raised while executing it. -/
inductive CmdOut where
  | ok (output : String)
  | err (msg : String)

/-- Execution context: the device oracle (a function of the history of
dispatched commands and the current command) and the `input()` answer used
by the `confirm` safety gate. -/
structure Ctx where
  oracle : List String → String → CmdOut
  userConfirms : Bool

/-- Mutable executor state: the task's shared variables dict and the
history of commands dispatched to the device. -/
structure ExecState where
  vars : List (String × String)
  hist : List String

/-- The per-command result dict of `execute_command` (lines 183-224). -/
structure CmdResult where
  command : String
  success : Bool
  output : String
  error : Option String

/-- `execute_command(command)` in shell mode: send the command, frame the
output; an exception yields `success=False` with the message recorded. -/
def execCommand (ctx : Ctx) (cmd : String) (st : ExecState) :
    CmdResult × ExecState :=
  match ctx.oracle st.hist cmd with
  | .ok out =>
    ({ command := cmd, success := true, output := out, error := none },
      { st with hist := st.hist ++ [cmd] })
  | .err m =>
    ({ command := cmd, success := false, output := "", error := some m },
      { st with hist := st.hist ++ [cmd] })

/-- The save-command rewrite inside the loop of `execute_commands`
(lines 252-253): `if 'save' in cmd.lower() and 'force' not in cmd.lower():
cmd = 'save force'`. -/
def rewriteSave (cmd : String) : String :=
  if strContains (strLower cmd) "save" && !strContains (strLower cmd) "force"
  then "save force" else cmd

/-- The `for` loop of `execute_commands` (lines 248-260): rewrite, dispatch,
append the result, and break after a failure when `stop_on_error`. -/
def runCommands (ctx : Ctx) (stopOnError : Bool) :
    List String → ExecState → List CmdResult × ExecState
  | [], st => ([], st)
  | cmd :: rest, st =>
    let pr := execCommand ctx (rewriteSave cmd) st
    if !pr.1.success && stopOnError then ([pr.1], pr.2)
    else
      let q := runCommands ctx stopOnError rest pr.2
      (pr.1 :: q.1, q.2)

/-- `execute_commands(commands, ...)` (lines 226-267): the confirmation
gate (a declined `input()` cancels with an empty result list), the command
loop, and the optional trailing `save force` whose result is discarded. -/
def executeCommands (ctx : Ctx) (stopOnError confirm saveConfig : Bool)
    (cmds : List String) (st : ExecState) : List CmdResult × ExecState :=
  if confirm && !ctx.userConfirms then ([], st)
  else
    let q := runCommands ctx stopOnError cmds st
    if saveConfig then (q.1, (execCommand ctx "save force" q.2).2)
    else q

/-- The per-step result dict of `_execute_step`; absent dict keys are the
defaults (`skipped` and `results` are only set on some paths). -/
structure StepResult where
  success : Bool
  output : String := ""
  skipped : Bool := false
  results : List CmdResult := []

/-- `_execute_commands_in_step(step, variables)` (lines 334-354): resolve
every command template, run them, succeed iff every result did. -/
def execCommandsInStep (ctx : Ctx) (s : Step) (st : ExecState) :
    StepResult × ExecState :=
  let resolved := s.commands.map fun c => resolveVariables c st.vars
  let q := executeCommands ctx s.stopOnError s.confirm false resolved st
  ({ success := q.1.all fun r => r.success, results := q.1 }, q.2)

/-- A Python `for x in xs:` whose body either returns early (`inl`) or
updates the loop state (`inr`). -/
def forEach (f : σ → α → β ⊕ σ) : List α → σ → β ⊕ σ
  | [], st => Sum.inr st
  | x :: xs, st =>
    match f st x with
    | Sum.inl b => Sum.inl b
    | Sum.inr st' => forEach f xs st'

/-- Body of the loop inside `_execute_step` (lines 322-326): bind the loop
variable in the shared dict, run the step's commands, return the failing
sub-result early or continue with the updated state. -/
def loopIterF (ctx : Ctx) (s : Step) (ivar : String) (st : ExecState)
    (item : String) : (StepResult × ExecState) ⊕ ExecState :=
  let pr := execCommandsInStep ctx s { st with vars := dictSet st.vars ivar item }
  if pr.1.success then Sum.inr pr.2 else Sum.inl pr

/-- `_execute_step` after the condition gate: the loop branch (lines
317-329) or the plain command branch (line 332). -/
def execStepBody (ctx : Ctx) (s : Step) (st : ExecState) :
    StepResult × ExecState :=
  match s.loopCfg with
  | some lc =>
    let items := lc.items.map fun x => resolveVariables x st.vars
    (match forEach (loopIterF ctx s lc.itemVar) items st with
     | Sum.inl pr => pr
     | Sum.inr st' => ({ success := true }, st'))
  | none => execCommandsInStep ctx s st

/-- `_execute_step(step, variables)` (lines 305-332): a present condition
that evaluates false short-circuits to the skipped result. -/
def execStep (ctx : Ctx) (s : Step) (st : ExecState) :
    StepResult × ExecState :=
  match s.condition with
  | some c =>
    if evalCondition c st.vars then execStepBody ctx s st
    else ({ success := true, skipped := true }, st)
  | none => execStepBody ctx s st

/-- `_execute_rollback(rollback_steps, variables)` (lines 384-388): run
`_execute_step` on each rollback step in reversed list order, discarding
results but keeping the state (the shared dict is mutated in place). -/
def execRollback (ctx : Ctx) (steps : List Step) (st : ExecState) :
    ExecState :=
  steps.reverse.foldl (fun st s => (execStep ctx s st).2) st

/-- The step loop of `execute_task` (lines 284-295): on a failed step, run
its own rollback list if present and stop; count completed steps.  Returns
(per-step results, steps completed, final state). -/
def runSteps (ctx : Ctx) :
    List Step → ExecState → List StepResult × Nat × ExecState
  | [], st => ([], 0, st)
  | s :: rest, st =>
    let pr := execStep ctx s st
    if pr.1.success then
      let q := runSteps ctx rest pr.2
      (pr.1 :: q.1, q.2.1 + 1, q.2.2)
    else
      ([pr.1], 0,
        match s.rollback with
        | some rb => execRollback ctx rb pr.2
        | none => pr.2)

/-- A validated Task: name, variable bindings (the `variables` key of the
task file), ordered steps. -/
structure Task where
  name : String
  vars : List (String × String)
  steps : List Step

/-- The result dict of `execute_task` (lines 271-297). -/
structure TaskResult where
  taskName : String
  success : Bool
  stepsCompleted : Nat
  stepsTotal : Nat
  results : List StepResult

/-- `execute_task(task)` (lines 269-303): run the steps from the task's
variable bindings; overall success iff every step counted as completed. -/
def executeTask (ctx : Ctx) (task : Task) (hist0 : List String) :
    TaskResult × ExecState :=
  let q := runSteps ctx task.steps { vars := task.vars, hist := hist0 }
  ({ taskName := task.name,
     success := q.2.1 == task.steps.length,
     stepsCompleted := q.2.1,
     stepsTotal := task.steps.length,
     results := q.1 }, q.2.2)

/-- Reference loop (refinement side of claim C6), following the claim's
words: the nested Command is executed once per item, in list order, with
the loop variable bound to the current item before each iteration, and the
loop aborts on the first failing iteration, which fails the whole step. -/
def loopSpec (ctx : Ctx) (s : Step) (ivar : String) :
    List String → ExecState → StepResult × ExecState
  | [], st => ({ success := true }, st)
  | item :: rest, st =>
    let pr := execCommandsInStep ctx s { st with vars := dictSet st.vars ivar item }
    if pr.1.success then loopSpec ctx s ivar rest pr.2 else pr

/-! ## FleetOrchestrator (batch_manager.py, lines 95-233)

`connect_device` catches every exception and returns `None`, modelled as
an `Option`-valued connection function; the operation closure may raise,
modelled as `Except`; `disconnect` has no observable effect here.  The
thread pool of `batch_execute` appends results in `as_completed` order,
modelled as an arbitrary permutation of the per-device results. -/

/-- A device inventory entry; only the `host` key is read by
`execute_on_device`, and it may be absent. -/
structure BDevice where
  host : Option String

/-- The per-device result dict of `execute_on_device` (lines 139-145). -/
structure DeviceResult (α : Type) where
  host : String
  operation : String
  status : String
  message : String
  data : Option α
deriving DecidableEq

/-- `execute_on_device(device_info, operation, operation_name)` (lines
125-175): a failed connection yields status `failed`; an exception raised
by the operation is caught into status `error` with its message; otherwise
status `success` with the operation's output as `data`. -/
def executeOnDevice {κ α : Type} (connect : BDevice → Option κ)
    (op : κ → Except String α) (opName : String) (d : BDevice) :
    DeviceResult α :=
  match connect d with
  | none =>
    { host := d.host.getD "unknown", operation := opName,
      status := "failed", message := "连接失败", data := none }
  | some conn =>
    match op conn with
    | .ok out =>
      { host := d.host.getD "unknown", operation := opName,
        status := "success", message := opName ++ "成功", data := some out }
    | .error e =>
      { host := d.host.getD "unknown", operation := opName,
        status := "error", message := e, data := none }

/-- The sequential branch of `batch_execute` (lines 220-225): one
`execute_on_device` result appended per device, in input order (the empty
inventory early-return at line 193 returns the same empty list). -/
def batchResultsSeq {κ α : Type} (connect : BDevice → Option κ)
    (op : κ → Except String α) (opName : String) (devices : List BDevice) :
    List (DeviceResult α) :=
  devices.map (executeOnDevice connect op opName)

/-- The observable outcomes of `batch_execute(operation, ..., parallel)`
(lines 177-233): sequentially, exactly the in-order result list; in
parallel, the same results appended in `as_completed` order, i.e. any
permutation of them. -/
def BatchOutcome {κ α : Type} (parallel : Bool)
    (connect : BDevice → Option κ) (op : κ → Except String α)
    (opName : String) (devices : List BDevice)
    (res : List (DeviceResult α)) : Prop :=
  match parallel with
  | true => res.Perm (batchResultsSeq connect op opName devices)
  | false => res = batchResultsSeq connect op opName devices

/-! ## Helper lemmas -/

theorem replaceGo_of_not_contains (pat rep : List Char) :
    ∀ (fuel : Nat) (s : List Char), s.length ≤ fuel →
      containsL pat s = false → pat ≠ [] → replaceGo pat rep fuel s = s := by
  intro fuel
  induction fuel with
  | zero =>
    intro s hlen _ _
    have : s = [] := List.eq_nil_of_length_eq_zero (Nat.le_zero.mp hlen)
    subst this
    rfl
  | succ n ih =>
    intro s hlen hcc hne
    cases s with
    | nil => rfl
    | cons c rest =>
      have hsplit : pat.isPrefixOf (c :: rest) = false ∧
          containsL pat rest = false := by
        have : (pat.isPrefixOf (c :: rest) || containsL pat rest) = false :=
          hcc
        exact Bool.or_eq_false_iff.mp this
      have hlen' : rest.length ≤ n := Nat.le_of_succ_le_succ hlen
      simp only [replaceGo, hsplit.1, Bool.false_and, if_neg,
        Bool.false_eq_true, not_false_eq_true,
        ih rest hlen' hsplit.2 hne]

theorem strReplace_of_not_contains (s pat rep : String)
    (h : strContains s pat = false) (hne : pat.data ≠ []) :
    strReplace s pat rep = s := by
  show String.mk (replaceGo pat.data rep.data s.data.length s.data) = s
  rw [replaceGo_of_not_contains pat.data rep.data s.data.length s.data
    (Nat.le_refl _) h hne]

theorem placeholder_data (k : String) :
    (placeholder k).data = '\x7b' :: '\x7b' :: (k.data ++ ['\x7d', '\x7d']) := by
  show ("\x7b\x7b" ++ k ++ "\x7d\x7d").data = _
  rw [String.data_append, String.data_append]
  rfl

theorem resolveVariables_of_no_bound_placeholder
    (text : String) (vars : List (String × String))
    (h : ∀ kv ∈ vars, strContains text (placeholder kv.1) = false) :
    resolveVariables text vars = text := by
  induction vars with
  | nil => rfl
  | cons kv rest ih =>
    show List.foldl _ (strReplace text (placeholder kv.1) kv.2) rest = text
    rw [strReplace_of_not_contains text (placeholder kv.1) kv.2
      (h kv (List.mem_cons_self kv rest))
      (by rw [placeholder_data]; exact List.cons_ne_nil _ _)]
    exact ih fun p hp => h p (List.mem_cons_of_mem kv hp)

theorem execCommand_command (ctx : Ctx) (cmd : String) (st : ExecState) :
    (execCommand ctx cmd st).1.command = cmd := by
  unfold execCommand
  cases ctx.oracle st.hist cmd <;> rfl

theorem execCommand_vars (ctx : Ctx) (cmd : String) (st : ExecState) :
    (execCommand ctx cmd st).2.vars = st.vars := by
  unfold execCommand
  cases ctx.oracle st.hist cmd <;> rfl

theorem runCommands_vars (ctx : Ctx) (so : Bool) :
    ∀ (cmds : List String) (st : ExecState),
      (runCommands ctx so cmds st).2.vars = st.vars := by
  intro cmds
  induction cmds with
  | nil => intro st; rfl
  | cons cmd rest ih =>
    intro st
    show (runCommands ctx so (cmd :: rest) st).2.vars = st.vars
    unfold runCommands
    dsimp only
    split
    · exact execCommand_vars ..
    · rw [ih, execCommand_vars]

theorem executeCommands_vars (ctx : Ctx) (so cf sv : Bool)
    (cmds : List String) (st : ExecState) :
    (executeCommands ctx so cf sv cmds st).2.vars = st.vars := by
  unfold executeCommands
  split
  · rfl
  · split
    · show (execCommand ctx "save force" _).2.vars = st.vars
      rw [execCommand_vars, runCommands_vars]
    · exact runCommands_vars ..

theorem execCommandsInStep_vars (ctx : Ctx) (s : Step) (st : ExecState) :
    (execCommandsInStep ctx s st).2.vars = st.vars :=
  executeCommands_vars ..

theorem dictSet_dictSet (m : List (String × String)) (k v w : String) :
    dictSet (dictSet m k v) k w = dictSet m k w := by
  induction m with
  | nil => simp [dictSet]
  | cons kv rest ih =>
    rcases kv with ⟨a, b⟩
    by_cases h : a == k
    · simp [dictSet, h]
    · simp [dictSet, h, ih]

theorem lookupVar_dictSet (m : List (String × String)) (k v : String) :
    lookupVar (dictSet m k v) k = some v := by
  induction m with
  | nil => simp [dictSet, lookupVar]
  | cons kv rest ih =>
    rcases kv with ⟨a, b⟩
    by_cases h : a == k
    · simp [dictSet, lookupVar, h]
    · simp [dictSet, lookupVar, h, ih]

theorem forEach_eq_loopSpec (ctx : Ctx) (s : Step) (ivar : String) :
    ∀ (items : List String) (st : ExecState),
      (match forEach (loopIterF ctx s ivar) items st with
       | Sum.inl pr => pr
       | Sum.inr st' => ({ success := true }, st')) =
        loopSpec ctx s ivar items st := by
  intro items
  induction items with
  | nil => intro st; rfl
  | cons item rest ih =>
    intro st
    rw [forEach, loopSpec, loopIterF]
    by_cases h : (execCommandsInStep ctx s
        { st with vars := dictSet st.vars ivar item }).1.success = true
    · simp only [if_pos h]
      exact ih _
    · simp only [if_neg h]

/-- Reduction of `_execute_step` on a loop step whose condition gate (if
any) passes: it is exactly the claim-side reference loop on the resolved
item list. -/
theorem execStep_loop (ctx : Ctx) (s : Step) (st : ExecState) (lc : LoopCfg)
    (hl : s.loopCfg = some lc)
    (hc : ∀ c, s.condition = some c → evalCondition c st.vars = true) :
    execStep ctx s st =
      loopSpec ctx s lc.itemVar
        (lc.items.map fun x => resolveVariables x st.vars) st := by
  unfold execStep
  have hbody : execStepBody ctx s st =
      loopSpec ctx s lc.itemVar
        (lc.items.map fun x => resolveVariables x st.vars) st := by
    unfold execStepBody
    rw [hl]
    exact forEach_eq_loopSpec ..
  cases hcond : s.condition with
  | none => exact hbody
  | some c =>
    dsimp only
    rw [hc c hcond, if_pos rfl]
    exact hbody

/-- After the reference loop over a non-empty item list, the loop variable
is bound in place to one of the items: the last one when the loop
succeeded, the item of the failing iteration otherwise. -/
theorem loopSpec_vars (ctx : Ctx) (s : Step) (ivar : String) :
    ∀ (items : List String) (st : ExecState), items ≠ [] →
      ∃ x ∈ items,
        (loopSpec ctx s ivar items st).2.vars = dictSet st.vars ivar x ∧
        ((loopSpec ctx s ivar items st).1.success = true →
          items.getLast? = some x) := by
  intro items
  induction items with
  | nil => intro st h; exact absurd rfl h
  | cons item rest ih =>
    intro st _
    rw [loopSpec]
    split
    · cases rest with
      | nil =>
        simp only [loopSpec]
        exact ⟨item, List.mem_cons_self .., execCommandsInStep_vars ..,
          fun _ => rfl⟩
      | cons r2 rrest =>
        obtain ⟨x, hx, hvars, hlast⟩ := ih _ (List.cons_ne_nil r2 rrest)
        refine ⟨x, List.mem_cons_of_mem item hx, ?_, ?_⟩
        · rw [hvars, execCommandsInStep_vars]
          exact dictSet_dictSet st.vars ivar item x
        · intro hs
          rw [List.getLast?_cons_cons]
          exact hlast hs
    · rename_i hfail
      exact ⟨item, List.mem_cons_self .., execCommandsInStep_vars ..,
        fun hs => absurd hs hfail⟩

theorem joinSnoc (l : List String) (s : String) :
    String.join (l ++ [s]) = String.join l ++ s := by
  simp [String.join, List.foldl_append]

theorem countPSnoc (l : List String) (c : String) :
    (l ++ [c]).countP hasMore =
      l.countP hasMore + (if hasMore c then 1 else 0) := by
  simp [List.countP_append, List.countP_cons]

/-- Invariant of the `_handle_pagination` loop: the buffer is the
concatenation of the chunks read so far, and one continuation key has been
sent per consumed chunk containing the pagination token. -/
def PagInv (st : PagState) : Prop :=
  st.output = String.join st.consumed ∧
    st.sent = st.consumed.countP hasMore

theorem pagIdle_cases (st : PagState) :
    pagIdle st = (st, true) ∨
      pagIdle st = ({ st with now := st.now + 2 }, false) := by
  unfold pagIdle
  split
  · exact Or.inl rfl
  · exact Or.inr rfl

/-- Combined behaviour of one loop iteration: it preserves the loop
invariant, advances the clock by at most 0.7 s, and, whenever it does not
break out of the loop, advances the clock by at least 0.2 s. -/
theorem pagBody_total (st : PagState) :
    (PagInv st → PagInv (pagBody st).1) ∧
      (pagBody st).1.now ≤ st.now + 7 ∧
      ((pagBody st).2 = false → st.now + 2 ≤ (pagBody st).1.now) := by
  have hidle : ∀ s' : PagState, (PagInv s' → PagInv (pagIdle s').1) ∧
      (pagIdle s').1.now ≤ s'.now + 2 ∧
      ((pagIdle s').2 = false → (pagIdle s').1.now = s'.now + 2) := by
    intro s'
    rcases pagIdle_cases s' with h | h <;> rw [h]
    · exact ⟨fun hv => hv, Nat.le_add_right .., fun hf => by cases hf⟩
    · exact ⟨fun hv => hv, Nat.le_refl _, fun _ => rfl⟩
  unfold pagBody
  split
  · rename_i t chunk rest _
    split
    · dsimp only
      split
      · rename_i hm
        refine ⟨fun hv => ⟨?_, ?_⟩,
          by show st.now + 3 ≤ st.now + 7; omega,
          fun _ => by show st.now + 2 ≤ st.now + 3; omega⟩
        · show st.output ++ chunk = String.join (st.consumed ++ [chunk])
          rw [joinSnoc, hv.1]
        · show st.sent + 1 = (st.consumed ++ [chunk]).countP hasMore
          rw [countPSnoc, hv.2, if_pos hm]
      · rename_i hm
        have hinv1 : PagInv st → PagInv
            { st with
              output := st.output ++ chunk
              lastData := st.now
              pending := rest
              consumed := st.consumed ++ [chunk] } := by
          intro hv
          refine ⟨?_, ?_⟩
          · show st.output ++ chunk = String.join (st.consumed ++ [chunk])
            rw [joinSnoc, hv.1]
          · show st.sent = (st.consumed ++ [chunk]).countP hasMore
            rw [countPSnoc, hv.2, if_neg hm]
            omega
        split
        · split
          · set X : PagState :=
              { st with
                output := st.output ++ chunk
                now := st.now + 5
                lastData := st.now
                pending := rest
                consumed := st.consumed ++ [chunk] } with hXdef
            obtain ⟨hi, hn, hp⟩ := hidle X
            have hXnow : X.now = st.now + 5 := rfl
            refine ⟨fun hv => hi ?_, by omega, fun hf => ?_⟩
            · obtain ⟨a, b⟩ := hinv1 hv
              exact ⟨a, b⟩
            · have := hp hf
              omega
          · refine ⟨fun hv => ?_, by show st.now + 5 ≤ st.now + 7; omega,
              fun hf => by cases hf⟩
            obtain ⟨a, b⟩ := hinv1 hv
            exact ⟨a, b⟩
        · set Y : PagState :=
            { st with
              output := st.output ++ chunk
              lastData := st.now
              pending := rest
              consumed := st.consumed ++ [chunk] } with hYdef
          obtain ⟨hi, hn, hp⟩ := hidle Y
          have hYnow : Y.now = st.now := rfl
          refine ⟨fun hv => hi (hinv1 hv), by omega, fun hf => ?_⟩
          have := hp hf
          omega
    · obtain ⟨hi, hn, hp⟩ := hidle st
      refine ⟨hi, le_trans hn (by omega), fun hf => ?_⟩
      rw [hp hf]
  · obtain ⟨hi, hn, hp⟩ := hidle st
    refine ⟨hi, le_trans hn (by omega), fun hf => ?_⟩
    rw [hp hf]

/-- Main run lemma for the `while` loop: from any state below the hard
timeout, the loop exits on its own (the fuel is never exhausted), the loop
invariant is preserved, and the exit time stays within one iteration of the
hard timeout. -/
theorem pagLoop_run (timeoutD : Nat) :
    ∀ (fuel : Nat) (st : PagState), PagInv st → st.now ≤ timeoutD + 6 →
      timeoutD - st.now + 1 < 2 * fuel →
      ∃ fin, pagLoop timeoutD fuel st = some fin ∧ PagInv fin ∧
        fin.now ≤ timeoutD + 6 := by
  intro fuel
  induction fuel with
  | zero => intro st _ _ hf; omega
  | succ n ih =>
    intro st hinv hle hf
    obtain ⟨hbi, hbn, hbp⟩ := pagBody_total st
    by_cases hlt : st.now < timeoutD
    · by_cases hbr : (pagBody st).2 = true
      · refine ⟨(pagBody st).1, ?_, hbi hinv, by omega⟩
        unfold pagLoop
        rw [if_pos hlt]
        dsimp only
        rw [if_pos hbr]
      · have hbf : (pagBody st).2 = false := by
          revert hbr
          cases (pagBody st).2 <;> simp
        have hprog := hbp hbf
        obtain ⟨fin, hrun, hfinv, hfle⟩ := ih (pagBody st).1 (hbi hinv)
          (by omega) (by omega)
        refine ⟨fin, ?_, hfinv, hfle⟩
        unfold pagLoop
        rw [if_pos hlt]
        dsimp only
        rw [if_neg hbr]
        exact hrun
    · refine ⟨st, ?_, hinv, by omega⟩
      unfold pagLoop
      rw [if_neg hlt]

/-- A step whose condition is present and evaluates false is skipped:
`_execute_step` returns the skipped, non-failing result and leaves the
state untouched. -/
theorem execStep_skip (ctx : Ctx) (s : Step) (st : ExecState) (c : Cond)
    (hcond : s.condition = some c)
    (hf : evalCondition c st.vars = false) :
    execStep ctx s st = ({ success := true, skipped := true }, st) := by
  unfold execStep
  rw [hcond]
  dsimp only
  rw [hf]
  simp

/-! ## Concrete fixtures used by witnesses and counterexamples -/

/-- A device oracle that answers every command successfully. -/
def okCtx : Ctx :=
  { oracle := fun _ _ => CmdOut.ok "out", userConfirms := true }

/-- A device oracle that raises on one specific command. -/
def failOn (bad : String) : Ctx :=
  { oracle := fun _ cmd =>
      if cmd == bad then CmdOut.err "boom" else CmdOut.ok "out",
    userConfirms := true }

/-- A plain command step without condition, loop or rollback. -/
def cmdStep (cmds : List String) : Step :=
  Step.mk none none cmds none true false

/-- A plain command step carrying a rollback step list. -/
def cmdStepRb (cmds : List String) (rb : List Step) : Step :=
  Step.mk none none cmds (some rb) true false

/-- Three-step task in which S1 and S2 succeed, S3 fails, and every step
carries its own rollback list. -/
def c1Task : Task :=
  { name := "t", vars := [],
    steps := [cmdStepRb ["c1"] [cmdStep ["r1"]],
      cmdStepRb ["c2"] [cmdStep ["r2"]],
      cmdStepRb ["c3"] [cmdStep ["r3a"], cmdStep ["r3b"]]] }

/-- A loop step over three items whose command uses the loop variable. -/
def wLoopStep : Step :=
  Step.mk none (some ⟨["a", "b", "c"], "item"⟩)
    ["cmd \x7b\x7bitem\x7d\x7d"] none true false

/-- A connection function that always succeeds. -/
def wConnect : BDevice → Option Unit := fun _ => some ()

/-- An operation that returns normally. -/
def wOp : Unit → Except String String := fun _ => Except.ok "data"

/-- An operation that raises an exception with message `boom`. -/
def wOpBoom : Unit → Except String String := fun _ => Except.error "boom"

/-- A two-device inventory. -/
def wDevs : List BDevice := [⟨some "h1"⟩, ⟨some "h2"⟩]

/-- Schedule delivering one chunk with two pagination tokens followed by a
prompt chunk (a response of the form token-data-token-data-prompt). -/
def c2Sched : List (Nat × String) :=
  [(0, "---- More ----AAAA---- More ----BBBB"),
   (0, "BBBBBBBBBBBBBBBB<H3C>")]

/-! ## Claim theorems -/

/-- C3: for every device list and every operation, including raising ones,
`batch_execute` returns exactly one result record per input device — the
results list length equals the device list length — in both the parallel
mode (any completion order) and the sequential mode, regardless of partial
failure. -/
theorem c3_batch_result_cardinality {κ α : Type}
    (connect : BDevice → Option κ) (op : κ → Except String α)
    (opName : String) (parallel : Bool) (devices : List BDevice)
    (res : List (DeviceResult α))
    (h : BatchOutcome parallel connect op opName devices res) :
    res.length = devices.length := by
  cases parallel with
  | true =>
    have hp : res.Perm (batchResultsSeq connect op opName devices) := h
    rw [hp.length_eq]
    exact List.length_map ..
  | false =>
    have he : res = batchResultsSeq connect op opName devices := h
    rw [he]
    exact List.length_map ..

theorem c3_witness :
    ((batchResultsSeq wConnect wOp "op" wDevs).reverse).length =
      wDevs.length :=
  c3_batch_result_cardinality wConnect wOp "op" true wDevs _
    (List.reverse_perm _)

/-- C4: `execute_on_device` never propagates an exception: its status is
always one of success, failed, error; a failed connection yields `failed`,
an exception during the operation yields `error` carrying the exception
message, and a normal return yields `success` carrying the data. -/
theorem c4_device_status_taxonomy {κ α : Type}
    (connect : BDevice → Option κ) (op : κ → Except String α)
    (opName : String) (d : BDevice) :
    ((executeOnDevice connect op opName d).status = "success" ∨
      (executeOnDevice connect op opName d).status = "failed" ∨
      (executeOnDevice connect op opName d).status = "error") ∧
    (connect d = none →
      (executeOnDevice connect op opName d).status = "failed") ∧
    (∀ c, connect d = some c →
      (∀ e, op c = Except.error e →
        (executeOnDevice connect op opName d).status = "error" ∧
        (executeOnDevice connect op opName d).message = e) ∧
      (∀ v, op c = Except.ok v →
        (executeOnDevice connect op opName d).status = "success" ∧
        (executeOnDevice connect op opName d).data = some v)) := by
  unfold executeOnDevice
  cases hc : connect d with
  | none =>
    exact ⟨Or.inr (Or.inl rfl), fun _ => rfl, fun c hcc => nomatch hcc⟩
  | some c0 =>
    dsimp only
    cases ho : op c0 with
    | ok v0 =>
      refine ⟨Or.inl rfl, ?_, ?_⟩
      · intro hn
        cases hn
      · intro c hcc
        cases hcc
        refine ⟨fun e he => ?_, fun v hv => ?_⟩
        · rw [ho] at he
          cases he
        · rw [ho] at hv
          cases hv
          exact ⟨rfl, rfl⟩
    | error e0 =>
      refine ⟨Or.inr (Or.inr rfl), ?_, ?_⟩
      · intro hn
        cases hn
      · intro c hcc
        cases hcc
        refine ⟨fun e he => ?_, fun v hv => ?_⟩
        · rw [ho] at he
          cases he
          exact ⟨rfl, rfl⟩
        · rw [ho] at hv
          cases hv

theorem c4_witness :
    (executeOnDevice wConnect wOpBoom "op" ⟨some "h1"⟩).status = "error" ∧
    (executeOnDevice wConnect wOpBoom "op" ⟨some "h1"⟩).message = "boom" :=
  ((c4_device_status_taxonomy wConnect wOpBoom "op" ⟨some "h1"⟩).2.2
    () rfl).1 "boom" rfl

/-- C5 (amended): `_resolve_variables` applies a replace-all sequentially
per binding in dict order and never raises; a template containing no bound
placeholder is returned unchanged (unresolved placeholders stay verbatim),
and bound placeholders are replaced by their values, as in the claim's two
examples; but a bound value that itself contains a bound placeholder is
rewritten again by a later binding, so the double-brace a template with
a bound to the placeholder of b and b bound to x resolves to x, not to the
placeholder of b. -/
theorem c5_variable_substitution :
    (∀ (text : String) (vars : List (String × String)),
      (∀ kv ∈ vars, strContains text (placeholder kv.1) = false) →
      resolveVariables text vars = text) ∧
    resolveVariables "show vlan \x7b\x7bid\x7d\x7d" [("id", "100")] =
      "show vlan 100" ∧
    resolveVariables "show vlan \x7b\x7bmissing\x7d\x7d" [("id", "100")] =
      "show vlan \x7b\x7bmissing\x7d\x7d" ∧
    resolveVariables "\x7b\x7ba\x7d\x7d" [("a", "\x7b\x7bb\x7d\x7d"), ("b", "x")] =
      "x" :=
  ⟨resolveVariables_of_no_bound_placeholder, by decide, by decide, by decide⟩

theorem c5_witness :
    resolveVariables "show vlan \x7b\x7bmissing\x7d\x7d" [("id", "100")] =
      "show vlan \x7b\x7bmissing\x7d\x7d" :=
  c5_variable_substitution.1 "show vlan \x7b\x7bmissing\x7d\x7d"
    [("id", "100")] (by decide)

/-- C5 counterexample: with a bound to the placeholder text of b and b
bound to x, the template holding only the placeholder of a resolves to x —
not to the bound value of a as the claim requires. -/
theorem c5_counterexample :
    resolveVariables "\x7b\x7ba\x7d\x7d" [("a", "\x7b\x7bb\x7d\x7d"), ("b", "x")] ≠
      "\x7b\x7bb\x7d\x7d" ∧
    resolveVariables "\x7b\x7ba\x7d\x7d" [("a", "\x7b\x7bb\x7d\x7d"), ("b", "x")] =
      "x" := by
  exact ⟨by decide, by decide⟩

/-- C9: inside the dispatch loop of `execute_commands`, any command whose
lower-cased text contains `save` but not `force` is silently rewritten to
exactly `save force` before being dispatched and recorded, and the
rewritten command always differs from the supplied one; every recorded
per-command result carries the rewritten command text. -/
theorem c9_save_rewrite :
    (∀ cmd : String, strContains (strLower cmd) "save" = true →
      strContains (strLower cmd) "force" = false →
      rewriteSave cmd = "save force" ∧ cmd ≠ "save force") ∧
    (∀ (ctx : Ctx) (so : Bool) (cmds : List String) (st : ExecState),
      ((runCommands ctx so cmds st).1).map (fun r => r.command) =
        ((cmds.take ((runCommands ctx so cmds st).1).length).map
          rewriteSave)) := by
  constructor
  · intro cmd h1 h2
    constructor
    · simp [rewriteSave, h1, h2]
    · intro he
      rw [he] at h2
      exact absurd h2 (by decide)
  · intro ctx so cmds
    induction cmds with
    | nil => intro st; rfl
    | cons cmd rest ih =>
      intro st
      unfold runCommands
      dsimp only
      split
      · simp [execCommand_command]
      · simp [execCommand_command, ih]

theorem c9_witness :
    rewriteSave "save" = "save force" ∧ "save" ≠ "save force" :=
  c9_save_rewrite.1 "save" (by decide) (by decide)

/-- C6: executing a Loop step (whose condition gate, if any, passes) is
exactly the reference loop `loopSpec` over the resolved item list: the
nested Command runs once per item, in list order, with the loop variable
bound to the current item before each iteration, and aborts at the first
failing iteration, whose failing result fails the whole Loop step. -/
theorem c6_loop_semantics (ctx : Ctx) (s : Step) (st : ExecState)
    (lc : LoopCfg) (hl : s.loopCfg = some lc)
    (hc : ∀ c, s.condition = some c → evalCondition c st.vars = true) :
    execStep ctx s st =
      loopSpec ctx s lc.itemVar
        (lc.items.map fun x => resolveVariables x st.vars) st :=
  execStep_loop ctx s st lc hl hc

theorem c6_witness :
    execStep okCtx wLoopStep { vars := [], hist := [] } =
      loopSpec okCtx wLoopStep "item"
        (["a", "b", "c"].map fun x =>
          resolveVariables x ([] : List (String × String)))
        { vars := [], hist := [] } :=
  c6_loop_semantics okCtx wLoopStep { vars := [], hist := [] }
    ⟨["a", "b", "c"], "item"⟩ rfl (fun _ h => nomatch h)

/-- C10: a Loop step (condition gate passing, non-empty resolved items)
mutates the task's shared variable dict in place: afterwards the loop
variable is bound to the last iterated item (the final item on success, the
failing iteration's item otherwise), lookup sees that binding, and
`execute_task` threads exactly this updated state into every subsequent
step of the task. -/
theorem c10_loop_binding_persists (ctx : Ctx) (s : Step) (st : ExecState)
    (lc : LoopCfg) (hl : s.loopCfg = some lc)
    (hc : ∀ c, s.condition = some c → evalCondition c st.vars = true)
    (hne : lc.items.map (fun x => resolveVariables x st.vars) ≠ []) :
    (∃ x ∈ lc.items.map (fun x => resolveVariables x st.vars),
      (execStep ctx s st).2.vars = dictSet st.vars lc.itemVar x ∧
      lookupVar (execStep ctx s st).2.vars lc.itemVar = some x ∧
      ((execStep ctx s st).1.success = true →
        (lc.items.map (fun x => resolveVariables x st.vars)).getLast? =
          some x)) ∧
    (∀ rest : List Step, (execStep ctx s st).1.success = true →
      runSteps ctx (s :: rest) st =
        ((execStep ctx s st).1 ::
            (runSteps ctx rest (execStep ctx s st).2).1,
          (runSteps ctx rest (execStep ctx s st).2).2.1 + 1,
          (runSteps ctx rest (execStep ctx s st).2).2.2)) := by
  constructor
  · have heq := execStep_loop ctx s st lc hl hc
    rw [heq]
    obtain ⟨x, hx, hv, hlast⟩ := loopSpec_vars ctx s lc.itemVar _ st hne
    refine ⟨x, hx, hv, ?_, hlast⟩
    rw [hv]
    exact lookupVar_dictSet ..
  · intro rest hs
    rw [runSteps]
    dsimp only
    rw [if_pos hs]

theorem c10_witness :
    ∃ x ∈ (["a", "b", "c"].map fun x =>
        resolveVariables x ([] : List (String × String))),
      (execStep okCtx wLoopStep { vars := [], hist := [] }).2.vars =
        dictSet [] "item" x ∧
      lookupVar (execStep okCtx wLoopStep { vars := [], hist := [] }).2.vars
        "item" = some x ∧
      ((execStep okCtx wLoopStep { vars := [], hist := [] }).1.success =
          true →
        (["a", "b", "c"].map fun x =>
          resolveVariables x ([] : List (String × String))).getLast? =
            some x) :=
  (c10_loop_binding_persists okCtx wLoopStep { vars := [], hist := [] }
    ⟨["a", "b", "c"], "item"⟩ rfl (fun _ h => nomatch h) (by decide)).1

/-- C1 (amended): for a three-step task whose steps S1 and S2 succeed and
whose step S3 fails with rollback list `rb`, `execute_task` records the
three step results, counts two completed steps, reports overall failure,
and runs S3's own rollback list in reversed list order (via
`_execute_rollback`) before halting — the rollback lists of the completed
steps S1 and S2 are not run. -/
theorem c1_rollback_failed_step_only (ctx : Ctx) (s1 s2 s3 : Step)
    (nm : String) (vs : List (String × String)) (h0 : List String)
    (rb : List Step)
    (e1 : (execStep ctx s1 { vars := vs, hist := h0 }).1.success = true)
    (e2 : (execStep ctx s2
      (execStep ctx s1 { vars := vs, hist := h0 }).2).1.success = true)
    (e3 : (execStep ctx s3 (execStep ctx s2
      (execStep ctx s1 { vars := vs, hist := h0 }).2).2).1.success = false)
    (hrb : s3.rollback = some rb) :
    executeTask ctx { name := nm, vars := vs, steps := [s1, s2, s3] } h0 =
      ({ taskName := nm, success := false, stepsCompleted := 2,
         stepsTotal := 3,
         results := [(execStep ctx s1 { vars := vs, hist := h0 }).1,
           (execStep ctx s2
             (execStep ctx s1 { vars := vs, hist := h0 }).2).1,
           (execStep ctx s3 (execStep ctx s2
             (execStep ctx s1 { vars := vs, hist := h0 }).2).2).1] },
        execRollback ctx rb
          (execStep ctx s3 (execStep ctx s2
            (execStep ctx s1 { vars := vs, hist := h0 }).2).2).2) := by
  have e3' : ¬ (execStep ctx s3 (execStep ctx s2
      (execStep ctx s1 { vars := vs, hist := h0 }).2).2).1.success = true := by
    rw [e3]
    simp
  unfold executeTask
  dsimp only
  simp only [runSteps]
  rw [if_pos e1, if_pos e2, if_neg e3', hrb]
  rfl

theorem c1_witness :
    executeTask (failOn "c3") c1Task [] =
      ({ taskName := "t", success := false, stepsCompleted := 2,
         stepsTotal := 3,
         results :=
           [(execStep (failOn "c3") (cmdStepRb ["c1"] [cmdStep ["r1"]])
             { vars := [], hist := [] }).1,
            (execStep (failOn "c3") (cmdStepRb ["c2"] [cmdStep ["r2"]])
              (execStep (failOn "c3") (cmdStepRb ["c1"] [cmdStep ["r1"]])
                { vars := [], hist := [] }).2).1,
            (execStep (failOn "c3")
              (cmdStepRb ["c3"] [cmdStep ["r3a"], cmdStep ["r3b"]])
              (execStep (failOn "c3") (cmdStepRb ["c2"] [cmdStep ["r2"]])
                (execStep (failOn "c3") (cmdStepRb ["c1"] [cmdStep ["r1"]])
                  { vars := [], hist := [] }).2).2).1] },
        execRollback (failOn "c3") [cmdStep ["r3a"], cmdStep ["r3b"]]
          (execStep (failOn "c3")
            (cmdStepRb ["c3"] [cmdStep ["r3a"], cmdStep ["r3b"]])
            (execStep (failOn "c3") (cmdStepRb ["c2"] [cmdStep ["r2"]])
              (execStep (failOn "c3") (cmdStepRb ["c1"] [cmdStep ["r1"]])
                { vars := [], hist := [] }).2).2).2) :=
  c1_rollback_failed_step_only (failOn "c3")
    (cmdStepRb ["c1"] [cmdStep ["r1"]]) (cmdStepRb ["c2"] [cmdStep ["r2"]])
    (cmdStepRb ["c3"] [cmdStep ["r3a"], cmdStep ["r3b"]]) "t" [] []
    [cmdStep ["r3a"], cmdStep ["r3b"]]
    (by decide) (by decide) (by decide) rfl

/-- C1 counterexample: in the concrete three-step task `c1Task` (S1 and S2
succeed and carry rollbacks `r1` and `r2`; S3 fails and carries rollback
steps `r3a`, `r3b`), the dispatched-command history shows that only S3's
own rollback runs (in reversed order), and the rollback commands of the
completed steps S1 and S2 are never dispatched — refuting the claim that
S2's then S1's rollback lists run. -/
theorem c1_counterexample :
    (executeTask (failOn "c3") c1Task []).2.hist =
      ["c1", "c2", "c3", "r3b", "r3a"] ∧
    "r1" ∉ (executeTask (failOn "c3") c1Task []).2.hist ∧
    "r2" ∉ (executeTask (failOn "c3") c1Task []).2.hist := by
  exact ⟨by decide, by decide, by decide⟩

/-- C8: for a two-step task whose first step succeeds and whose second
step carries a condition evaluating false in the task's variables,
`execute_task` records the second step as skipped and non-failing, the
step-outcome list is exactly the completed first result followed by the
skipped result, and the overall task result has success true. -/
theorem c8_conditional_skip (ctx : Ctx) (s1 s2 : Step) (nm : String)
    (vs : List (String × String)) (h0 : List String)
    (e1 : (execStep ctx s1 { vars := vs, hist := h0 }).1.success = true)
    (hc : ∃ c, s2.condition = some c ∧
      evalCondition c (execStep ctx s1 { vars := vs, hist := h0 }).2.vars =
        false) :
    executeTask ctx { name := nm, vars := vs, steps := [s1, s2] } h0 =
      ({ taskName := nm, success := true, stepsCompleted := 2,
         stepsTotal := 2,
         results := [(execStep ctx s1 { vars := vs, hist := h0 }).1,
           { success := true, skipped := true }] },
        (execStep ctx s1 { vars := vs, hist := h0 }).2) := by
  obtain ⟨c, hcond, hfalse⟩ := hc
  have hstep2 := execStep_skip ctx s2
    (execStep ctx s1 { vars := vs, hist := h0 }).2 c hcond hfalse
  unfold executeTask
  dsimp only
  simp only [runSteps]
  rw [if_pos e1, hstep2]
  rfl

theorem c8_witness :
    executeTask okCtx
      { name := "two", vars := [("enable", "no")],
        steps := [cmdStep ["interface g0/1", "no shutdown"],
          Step.mk (some (Cond.equals "\x7b\x7benable\x7d\x7d" "yes")) none
            ["undo shutdown"] none true false] } [] =
      ({ taskName := "two", success := true, stepsCompleted := 2,
         stepsTotal := 2,
         results := [(execStep okCtx
             (cmdStep ["interface g0/1", "no shutdown"])
             { vars := [("enable", "no")], hist := [] }).1,
           { success := true, skipped := true }] },
        (execStep okCtx (cmdStep ["interface g0/1", "no shutdown"])
          { vars := [("enable", "no")], hist := [] }).2) :=
  c8_conditional_skip okCtx (cmdStep ["interface g0/1", "no shutdown"])
    (Step.mk (some (Cond.equals "\x7b\x7benable\x7d\x7d" "yes")) none
      ["undo shutdown"] none true false) "two" [("enable", "no")] []
    (by decide) ⟨Cond.equals "\x7b\x7benable\x7d\x7d" "yes", rfl, by decide⟩

/-- C7: for every byte-arrival schedule — including streams that never
produce a prompt, never go idle or produce no bytes at all — the
`_handle_pagination` loop exits on its own within its iteration fuel (a
hard-timeout return is a normal value, not an exception), returns the
accumulated buffer (the concatenation of all chunks read), and its clock
never passes the hard timeout by more than one iteration. -/
theorem c7_hard_timeout_termination (timeoutSec : Nat)
    (sched : List (Nat × String)) :
    ∃ fin, handlePagination timeoutSec sched = some fin ∧
      fin.output = String.join fin.consumed ∧
      fin.now ≤ timeoutSec * 10 + 6 := by
  obtain ⟨fin, hrun, hinv, hle⟩ := pagLoop_run (timeoutSec * 10)
    (timeoutSec * 10 + 1)
    { output := "", now := 0, lastData := 0, pending := sched, sent := 0,
      consumed := [] }
    ⟨rfl, rfl⟩ (by show (0 : Nat) ≤ timeoutSec * 10 + 6; omega)
    (by show timeoutSec * 10 - 0 + 1 < 2 * (timeoutSec * 10 + 1); omega)
  exact ⟨fin, hrun, hinv.1, hle⟩

/-- C2 (amended): for every schedule, `_handle_pagination` returns a state
in which exactly one continuation key has been sent per chunk read that
contains the pagination token (hence one per occurrence when each
occurrence arrives in its own chunk), and the returned text is the
concatenation of all chunks read, with the pagination markers left in. -/
theorem c2_pagination_keys (timeoutSec : Nat)
    (sched : List (Nat × String)) :
    ∃ fin, handlePagination timeoutSec sched = some fin ∧
      fin.sent = fin.consumed.countP hasMore ∧
      fin.output = String.join fin.consumed := by
  obtain ⟨fin, hrun, hinv, _⟩ := pagLoop_run (timeoutSec * 10)
    (timeoutSec * 10 + 1)
    { output := "", now := 0, lastData := 0, pending := sched, sent := 0,
      consumed := [] }
    ⟨rfl, rfl⟩ (by show (0 : Nat) ≤ timeoutSec * 10 + 6; omega)
    (by show timeoutSec * 10 - 0 + 1 < 2 * (timeoutSec * 10 + 1); omega)
  exact ⟨fin, hrun, hinv.2, hinv.1⟩

/-- C2 counterexample: on the schedule `c2Sched`, whose response is the
pagination token, data, a second token, more data and a prompt, the framer
reads a chunk containing two token occurrences but sends only one
continuation key, while the returned text (the concatenation of the chunks
read) contains the token twice — refuting one key per occurrence. -/
theorem c2_counterexample :
    ((handlePagination 60 c2Sched).map PagState.sent).getD 99 = 1 ∧
    countOccs ("---- More ----AAAA---- More ----BBBB" ++
      "BBBBBBBBBBBBBBBB<H3C>") moreToken = 2 ∧
    ((handlePagination 60 c2Sched).map fun fin =>
        String.join fin.consumed).getD "" =
      "---- More ----AAAA---- More ----BBBB" ++
        "BBBBBBBBBBBBBBBB<H3C>" := by
  exact ⟨by decide, by decide, by decide⟩

end NetAuto
